import Mathlib

/-!
Shallow embedding of `src/hindi_ekta_shangh_website.jsx`.

The application keeps a single document (the `data` state of the `App`
component) with an organization name, a description, a member list and an
idea list, persisted to one localStorage slot via `useLocalStorageState`.
Handlers `addMember`, `submitIdea`, `takeActionOnIdea` and `removeMember`
are pure state transformers once the ambient inputs (the current form
state, the `Date.now()` / `new Date().toISOString()` clock reads, and the
result of the `confirm` dialog) are made explicit parameters, which is how
they are embedded here.
-/

namespace Shangh

/-- A member record, as built at lines 78-84 of the source:
`{ id, name, position, work, photo }` where `photo` is a data URL or `null`. -/
structure Member where
  id : Nat
  name : String
  position : String
  work : String
  photo : Option String
deriving Repr, DecidableEq

/-- An idea record, as built at lines 92-99 of the source:
`{ id, title, description, image, status, submittedAt }`.  `status` is the
literal string the code stores (`"Open"` initially), `submittedAt` the ISO
string of the submission time. -/
structure Idea where
  id : Nat
  title : String
  description : String
  image : Option String
  status : String
  submittedAt : String
deriving Repr, DecidableEq

/-- The persisted document: the `data` state object of lines 49-54. -/
structure Doc where
  sanghName : String
  description : String
  members : List Member
  ideas : List Idea
deriving Repr, DecidableEq

/-- The member form state of line 57: `{ name, position, work, photoDataUrl }`. -/
structure MemberForm where
  name : String
  position : String
  work : String
  photoDataUrl : String
deriving Repr, DecidableEq

/-- The idea form state of line 58: `{ title, description, imageDataUrl }`. -/
structure IdeaForm where
  title : String
  description : String
  imageDataUrl : String
deriving Repr, DecidableEq

/-- The reset value `{ name: "", position: "", work: "", photoDataUrl: "" }`
assigned after a successful add (line 86) and by the cancel button. -/
def emptyMemberForm : MemberForm := ⟨"", "", "", ""⟩

/-- The reset value `{ title: "", description: "", imageDataUrl: "" }`
assigned after a successful submit (line 101). -/
def emptyIdeaForm : IdeaForm := ⟨"", "", ""⟩

/-- The seed document passed to `useLocalStorageState` at lines 49-54. -/
def seedDoc : Doc :=
  { sanghName := "हिंदी एकता शांग"
    description := "हमारी शांग का उद्देश्य स्थानीय सुरक्षा और सामुदायिक सहयोग बढ़ाना है।"
    members := []
    ideas := [] }

/-- Model of the JS builtin `String.prototype.trim()` used by the guards at
lines 77 and 91: removes leading and trailing whitespace characters.
Written structurally over the character list so that it evaluates by kernel
reduction. -/
def jsTrim (s : String) : String :=
  ⟨(((s.data.dropWhile Char.isWhitespace).reverse.dropWhile
      Char.isWhitespace).reverse)⟩

/-- JS `s || null` on a string: the empty string is falsy, so it becomes
`null`; any other string is kept (lines 83 and 96). -/
def orNull (s : String) : Option String :=
  if s = "" then none else some s

/-- `addMember` (lines 75-87).  `nowMs` is the `Date.now()` read at line 79.
The JS guard `if (!memberForm.name.trim()) return alert(...)` aborts, leaving
both the document and the form untouched; on success the new member is
appended (`[...d.members, newMember]`) and the form is reset.  Returns the
new document together with the new member-form state. -/
def addMember (form : MemberForm) (nowMs : Nat) (d : Doc) : Doc × MemberForm :=
  if jsTrim form.name = "" then (d, form)
  else
    let newMember : Member :=
      { id := nowMs
        name := form.name
        position := form.position
        work := form.work
        photo := orNull form.photoDataUrl }
    ({ d with members := d.members ++ [newMember] }, emptyMemberForm)

/-- `submitIdea` (lines 89-102).  `nowMs` is the `Date.now()` of line 93 and
`nowIso` the `new Date().toISOString()` of line 98.  An empty-after-trim
title aborts; otherwise the new idea is prepended (`[newIdea, ...d.ideas]`)
with status `"Open"`, and the form is reset. -/
def submitIdea (form : IdeaForm) (nowMs : Nat) (nowIso : String) (d : Doc) :
    Doc × IdeaForm :=
  if jsTrim form.title = "" then (d, form)
  else
    let newIdea : Idea :=
      { id := nowMs
        title := form.title
        description := form.description
        image := orNull form.imageDataUrl
        status := "Open"
        submittedAt := nowIso }
    ({ d with ideas := newIdea :: d.ideas }, emptyIdeaForm)

/-- `takeActionOnIdea` (lines 104-107): maps over the ideas, replacing the
status of every idea whose id matches by the literal string
`"Action Taken"` (note the space), leaving the others untouched. -/
def takeActionOnIdea (targetId : Nat) (d : Doc) : Doc :=
  { d with
    ideas := d.ideas.map fun i =>
      if i.id = targetId then { i with status := "Action Taken" } else i }

/-- `removeMember` (lines 109-112).  `confirmed` is the result of the
`confirm` dialog; when false the handler returns before mutating.  When
confirmed, `d.members.filter((m) => m.id !== id)` keeps every member whose
id differs from the target. -/
def removeMember (targetId : Nat) (confirmed : Bool) (d : Doc) : Doc :=
  if confirmed then
    { d with members := d.members.filter fun m => m.id != targetId }
  else d

/-- One user-level mutation of the document, with its ambient inputs
(form contents, clock reads, confirmation answer) made explicit. -/
inductive Op where
  | addMember (form : MemberForm) (nowMs : Nat)
  | removeMember (targetId : Nat) (confirmed : Bool)
  | submitIdea (form : IdeaForm) (nowMs : Nat) (nowIso : String)
  | takeAction (targetId : Nat)
deriving Repr, DecidableEq

/-- Apply one operation to the document (dropping the resulting form state,
which is not part of the persisted document). -/
def applyOp (d : Doc) : Op → Doc
  | .addMember f t => (addMember f t d).1
  | .removeMember i c => removeMember i c d
  | .submitIdea f t iso => (submitIdea f t iso d).1
  | .takeAction i => takeActionOnIdea i d

/-- Apply a sequence of operations left to right. -/
def applyOps (d : Doc) : List Op → Doc
  | [] => d
  | op :: ops => applyOps (applyOp d op) ops

/-- The ids of the document's members, in order. -/
def memberIds (d : Doc) : List Nat := d.members.map Member.id

/-- The ids of the document's ideas, in order. -/
def ideaIds (d : Doc) : List Nat := d.ideas.map Idea.id

end Shangh

namespace Shangh

/-- C1 counterexample: on a document holding a single open idea with id 1,
`takeActionOnIdea 1` stores the status string `"Action Taken"` (with a
space, line 106 of the source), which differs from the string
`"ActionTaken"` the claim asserts. -/
theorem c1_counterexample :
    ((takeActionOnIdea 1
        { sanghName := "s", description := "d", members := [],
          ideas := [⟨1, "Fix gate", "", none, "Open", "t0"⟩] }).ideas.map Idea.status)
      = ["Action Taken"] ∧ ("Action Taken" : String) ≠ "ActionTaken" := by
  decide

/-- C1 (amended): for any document containing an idea with id `X`,
`takeActionOnIdea X` yields a document in which that idea's status equals
the string `"Action Taken"` (not `"ActionTaken"`), its other fields are
unchanged, every idea whose id differs from `X` is unchanged, and the
members, name and description are unchanged. -/
theorem c1_mark_action_taken (d : Doc) (X j : Nat) (i : Idea)
    (hj : d.ideas[j]? = some i) :
    (takeActionOnIdea X d).sanghName = d.sanghName ∧
    (takeActionOnIdea X d).description = d.description ∧
    (takeActionOnIdea X d).members = d.members ∧
    (i.id = X →
      (takeActionOnIdea X d).ideas[j]? = some { i with status := "Action Taken" }) ∧
    (i.id ≠ X → (takeActionOnIdea X d).ideas[j]? = some i) := by
  refine ⟨rfl, rfl, rfl, ?_, ?_⟩ <;> intro h <;>
    simp [takeActionOnIdea, List.getElem?_map, hj, h]

/-- C1 witness: concrete two-idea document; the targeted idea's status
becomes `"Action Taken"` and the other idea is untouched. -/
theorem c1_mark_action_taken_witness :
    (takeActionOnIdea 1
        { sanghName := "s", description := "d", members := [],
          ideas := [⟨1, "Fix gate", "", none, "Open", "t0"⟩,
                    ⟨2, "Other", "", none, "Open", "t1"⟩] }).ideas[0]?
      = some ⟨1, "Fix gate", "", none, "Action Taken", "t0"⟩ ∧
    (takeActionOnIdea 1
        { sanghName := "s", description := "d", members := [],
          ideas := [⟨1, "Fix gate", "", none, "Open", "t0"⟩,
                    ⟨2, "Other", "", none, "Open", "t1"⟩] }).ideas[1]?
      = some ⟨2, "Other", "", none, "Open", "t1"⟩ :=
  ⟨(c1_mark_action_taken
      { sanghName := "s", description := "d", members := [],
        ideas := [⟨1, "Fix gate", "", none, "Open", "t0"⟩,
                  ⟨2, "Other", "", none, "Open", "t1"⟩] }
      1 0 ⟨1, "Fix gate", "", none, "Open", "t0"⟩ rfl).2.2.2.1 rfl,
   (c1_mark_action_taken
      { sanghName := "s", description := "d", members := [],
        ideas := [⟨1, "Fix gate", "", none, "Open", "t0"⟩,
                  ⟨2, "Other", "", none, "Open", "t1"⟩] }
      1 1 ⟨2, "Other", "", none, "Open", "t1"⟩ rfl).2.2.2.2 (by decide)⟩

/-- C4: when the member form's name trims to the empty string, `addMember`
returns before mutating (line 77): the document is unchanged and the form
keeps the user's entered values. -/
theorem c4_addMember_blank_name (d : Doc) (form : MemberForm) (t : Nat)
    (h : jsTrim form.name = "") :
    addMember form t d = (d, form) := by
  simp [addMember, h]

/-- C4 witness: a whitespace-only name at a concrete form and the seed
document leaves both document and form untouched. -/
theorem c4_addMember_blank_name_witness :
    addMember ⟨"   ", "p", "w", "u"⟩ 3 seedDoc = (seedDoc, ⟨"   ", "p", "w", "u"⟩) :=
  c4_addMember_blank_name seedDoc ⟨"   ", "p", "w", "u"⟩ 3 (by decide)

/-- C5: when the member form's name does not trim to the empty string,
`addMember` appends exactly one new member at the last position, built from
the form's fields with the fresh id `t` and `photo = null` when no photo
data URL was chosen; existing members and the rest of the document are
unchanged, and the form is reset to empty defaults. -/
theorem c5_addMember_appends (d : Doc) (form : MemberForm) (t : Nat)
    (h : jsTrim form.name ≠ "") :
    (addMember form t d).1.members
      = d.members ++ [⟨t, form.name, form.position, form.work, orNull form.photoDataUrl⟩] ∧
    (addMember form t d).1.members.length = d.members.length + 1 ∧
    (addMember form t d).1.sanghName = d.sanghName ∧
    (addMember form t d).1.description = d.description ∧
    (addMember form t d).1.ideas = d.ideas ∧
    (addMember form t d).2 = emptyMemberForm := by
  simp [addMember, h]

/-- C5 witness (end-to-end scenario A): from the seed document,
`addMember {name := "Asha"}` yields exactly one member
`{id := 42, name := "Asha", position := "", work := "", photo := none}`
and resets the form. -/
theorem c5_addMember_appends_witness :
    (addMember ⟨"Asha", "", "", ""⟩ 42 seedDoc).1.members = [⟨42, "Asha", "", "", none⟩] ∧
    (addMember ⟨"Asha", "", "", ""⟩ 42 seedDoc).2 = emptyMemberForm := by
  have h := c5_addMember_appends seedDoc ⟨"Asha", "", "", ""⟩ 42 (by decide)
  exact ⟨by rw [h.1]; rfl, h.2.2.2.2.2⟩

end Shangh

namespace Shangh

/-- C6: `submitIdea` with a title that trims to the empty string leaves the
document and the form untouched; with a non-empty trimmed title it prepends
exactly one new idea at index 0, with status `"Open"`, the fresh id, the
submission timestamp, and `image = null` when no image data URL was chosen;
the previously present ideas follow in order, the rest of the document is
unchanged, and the form is reset. -/
theorem c6_submitIdea_prepends (d : Doc) (form : IdeaForm) (t : Nat) (iso : String) :
    (jsTrim form.title = "" → submitIdea form t iso d = (d, form)) ∧
    (jsTrim form.title ≠ "" →
      (submitIdea form t iso d).1.ideas
        = ⟨t, form.title, form.description, orNull form.imageDataUrl, "Open", iso⟩ :: d.ideas ∧
      (submitIdea form t iso d).1.ideas.length = d.ideas.length + 1 ∧
      (submitIdea form t iso d).1.members = d.members ∧
      (submitIdea form t iso d).1.sanghName = d.sanghName ∧
      (submitIdea form t iso d).1.description = d.description ∧
      (submitIdea form t iso d).2 = emptyIdeaForm) := by
  constructor <;> intro h <;> simp [submitIdea, h]

/-- C6 witness (end-to-end scenario B): submitting "Night patrol" then
"Better lighting" from the seed document yields titles
`["Better lighting", "Night patrol"]`, and an empty title is rejected
without change. -/
theorem c6_submitIdea_prepends_witness :
    (submitIdea ⟨"Better lighting", "", ""⟩ 2 "t2"
        (submitIdea ⟨"Night patrol", "", ""⟩ 1 "t1" seedDoc).1).1.ideas.map Idea.title
      = ["Better lighting", "Night patrol"] ∧
    submitIdea ⟨"", "", ""⟩ 3 "t3" seedDoc = (seedDoc, ⟨"", "", ""⟩) := by
  have h1 := (c6_submitIdea_prepends seedDoc ⟨"Night patrol", "", ""⟩ 1 "t1").2 (by decide)
  have h2 := (c6_submitIdea_prepends (submitIdea ⟨"Night patrol", "", ""⟩ 1 "t1" seedDoc).1
      ⟨"Better lighting", "", ""⟩ 2 "t2").2 (by decide)
  have h3 := (c6_submitIdea_prepends seedDoc ⟨"", "", ""⟩ 3 "t3").1 (by decide)
  exact ⟨by rw [h2.1, h1.1]; rfl, h3⟩

/-- C10: the stored member name and idea title are the form's exact
strings, untrimmed — trimming is applied only inside the validation guard
(lines 77, 80 and 91, 94 of the source). -/
theorem c10_fields_stored_untrimmed (d : Doc) (mf : MemberForm) (idf : IdeaForm)
    (t u : Nat) (iso : String)
    (hm : jsTrim mf.name ≠ "") (hi : jsTrim idf.title ≠ "") :
    ((addMember mf t d).1.members.getLast?.map Member.name = some mf.name) ∧
    (((submitIdea idf u iso d).1.ideas[0]?).map Idea.title = some idf.title) := by
  constructor
  · simp [addMember, hm, List.getLast?_concat]
  · simp [submitIdea, hi]

/-- C10 witness: the name `" Asha "` and the title `" Night patrol "`,
whose trimmed forms are non-empty, are accepted and stored with their
leading and trailing whitespace preserved. -/
theorem c10_fields_stored_untrimmed_witness :
    ((addMember ⟨" Asha ", "", "", ""⟩ 9 seedDoc).1.members.getLast?.map Member.name
      = some " Asha ") ∧
    (((submitIdea ⟨" Night patrol ", "", ""⟩ 9 "t" seedDoc).1.ideas[0]?).map Idea.title
      = some " Night patrol ") :=
  c10_fields_stored_untrimmed seedDoc ⟨" Asha ", "", "", ""⟩ ⟨" Night patrol ", "", ""⟩
    9 9 "t" (by decide) (by decide)

end Shangh

namespace Shangh

/-- Marking the same idea element twice gives the same element as marking
it once. -/
lemma takeAction_elem_idem (X : Nat) (i : Idea) :
    (fun i => if i.id = X then { i with status := "Action Taken" } else i)
      ((fun i => if i.id = X then { i with status := "Action Taken" } else i) i)
    = (fun i => if i.id = X then { i with status := "Action Taken" } else i) i := by
  by_cases h : i.id = X <;> simp [h]

/-- `takeActionOnIdea` applied twice equals it applied once. -/
lemma takeAction_idem (d : Doc) (X : Nat) :
    takeActionOnIdea X (takeActionOnIdea X d) = takeActionOnIdea X d := by
  simp only [takeActionOnIdea, List.map_map]
  congr 1
  apply List.map_congr_left
  intro i _
  exact takeAction_elem_idem X i

/-- `takeActionOnIdea` is the identity when no idea has the target id. -/
lemma takeAction_not_found (d : Doc) (X : Nat) (h : ∀ i ∈ d.ideas, i.id ≠ X) :
    takeActionOnIdea X d = d := by
  have hmap : d.ideas.map
      (fun i => if i.id = X then { i with status := "Action Taken" } else i) = d.ideas := by
    calc d.ideas.map (fun i => if i.id = X then { i with status := "Action Taken" } else i)
        = d.ideas.map id := List.map_congr_left (fun i hi => by simp [h i hi])
      _ = d.ideas := List.map_id _
  show { d with ideas := _ } = d
  rw [hmap]

/-- `takeActionOnIdea` is the identity when every idea with the target id
already carries status `"Action Taken"`. -/
lemma takeAction_already (d : Doc) (X : Nat)
    (h : ∀ i ∈ d.ideas, i.id = X → i.status = "Action Taken") :
    takeActionOnIdea X d = d := by
  have hmap : d.ideas.map
      (fun i => if i.id = X then { i with status := "Action Taken" } else i) = d.ideas := by
    calc d.ideas.map (fun i => if i.id = X then { i with status := "Action Taken" } else i)
        = d.ideas.map id := by
          apply List.map_congr_left
          intro i hi
          by_cases hid : i.id = X
          · have hst := h i hi hid
            simp only [id]
            rw [if_pos hid, ← hst]
          · simp only [id]
            rw [if_neg hid]
      _ = d.ideas := List.map_id _
  show { d with ideas := _ } = d
  rw [hmap]

/-- A single operation never removes an action-taken idea and never changes
its status back: some idea with the same id and status `"Action Taken"`
survives. -/
lemma actionTaken_preserved_op (op : Op) (d : Doc) (i : Idea)
    (hmem : i ∈ d.ideas) (hst : i.status = "Action Taken") :
    ∃ j ∈ (applyOp d op).ideas, j.id = i.id ∧ j.status = "Action Taken" := by
  cases op with
  | addMember f t =>
      refine ⟨i, ?_, rfl, hst⟩
      simp only [applyOp, addMember]
      split <;> exact hmem
  | removeMember x c =>
      refine ⟨i, ?_, rfl, hst⟩
      simp only [applyOp, removeMember]
      split <;> exact hmem
  | submitIdea f t iso =>
      refine ⟨i, ?_, rfl, hst⟩
      simp only [applyOp, submitIdea]
      split
      · exact hmem
      · exact List.mem_cons_of_mem _ hmem
  | takeAction x =>
      simp only [applyOp, takeActionOnIdea]
      refine ⟨if i.id = x then { i with status := "Action Taken" } else i,
        List.mem_map_of_mem _ hmem, ?_, ?_⟩ <;>
        by_cases hid : i.id = x <;> simp [hid, hst]

/-- Across any operation sequence, an action-taken idea keeps a surviving
copy with the same id and status `"Action Taken"`. -/
lemma actionTaken_preserved_ops (ops : List Op) :
    ∀ (d : Doc) (i : Idea), i ∈ d.ideas → i.status = "Action Taken" →
      ∃ j ∈ (applyOps d ops).ideas, j.id = i.id ∧ j.status = "Action Taken" := by
  induction ops with
  | nil => exact fun d i h hs => ⟨i, h, rfl, hs⟩
  | cons op ops ih =>
      intro d i hmem hst
      obtain ⟨j, hj, hjid, hjst⟩ := actionTaken_preserved_op op d i hmem hst
      obtain ⟨k, hk, hkid, hkst⟩ := ih (applyOp d op) j hj hjst
      exact ⟨k, hk, hkid.trans hjid, hkst⟩

/-- C3: `takeActionOnIdea X` is idempotent; it is a no-op when no idea has
id `X` and when the matching idea already has status `"Action Taken"`; and
no operation sequence ever reverts an action-taken idea (a surviving idea
with the same id keeps status `"Action Taken"`). -/
theorem c3_mark_action_taken_algebra (d : Doc) (X : Nat) (ops : List Op) :
    takeActionOnIdea X (takeActionOnIdea X d) = takeActionOnIdea X d ∧
    ((∀ i ∈ d.ideas, i.id ≠ X) → takeActionOnIdea X d = d) ∧
    ((∀ i ∈ d.ideas, i.id = X → i.status = "Action Taken") → takeActionOnIdea X d = d) ∧
    (∀ i ∈ d.ideas, i.status = "Action Taken" →
      ∃ j ∈ (applyOps d ops).ideas, j.id = i.id ∧ j.status = "Action Taken") :=
  ⟨takeAction_idem d X, takeAction_not_found d X, takeAction_already d X,
   fun i hm hs => actionTaken_preserved_ops ops d i hm hs⟩

/-- C3 witness: concrete one-idea documents exercising idempotence, the
no-op cases and the preservation statement. -/
theorem c3_mark_action_taken_algebra_witness :
    (takeActionOnIdea 2 (takeActionOnIdea 2
        { sanghName := "s", description := "d", members := [],
          ideas := [⟨2, "t", "", none, "Open", "ts"⟩] })
      = takeActionOnIdea 2
        { sanghName := "s", description := "d", members := [],
          ideas := [⟨2, "t", "", none, "Open", "ts"⟩] }) ∧
    (takeActionOnIdea 7
        { sanghName := "s", description := "d", members := [],
          ideas := [⟨2, "t", "", none, "Open", "ts"⟩] }
      = { sanghName := "s", description := "d", members := [],
          ideas := [⟨2, "t", "", none, "Open", "ts"⟩] }) ∧
    (∃ j ∈ (applyOps
        { sanghName := "s", description := "d", members := [],
          ideas := [⟨2, "t", "", none, "Action Taken", "ts"⟩] }
        [Op.takeAction 2, Op.submitIdea ⟨"x", "", ""⟩ 9 "t9"]).ideas,
      j.id = 2 ∧ j.status = "Action Taken") := by
  refine ⟨(c3_mark_action_taken_algebra
      { sanghName := "s", description := "d", members := [],
        ideas := [⟨2, "t", "", none, "Open", "ts"⟩] } 2 []).1,
    (c3_mark_action_taken_algebra
      { sanghName := "s", description := "d", members := [],
        ideas := [⟨2, "t", "", none, "Open", "ts"⟩] } 7 []).2.1 (by decide), ?_⟩
  exact (c3_mark_action_taken_algebra
      { sanghName := "s", description := "d", members := [],
        ideas := [⟨2, "t", "", none, "Action Taken", "ts"⟩] } 2
      [Op.takeAction 2, Op.submitIdea ⟨"x", "", ""⟩ 9 "t9"]).2.2.2
      ⟨2, "t", "", none, "Action Taken", "ts"⟩ (List.mem_singleton.mpr rfl) rfl

end Shangh

namespace Shangh

/-- Every id in the document is below the bound `t`. -/
def idsBelow (d : Doc) (t : Nat) : Prop :=
  (∀ x ∈ memberIds d, x < t) ∧ (∀ x ∈ ideaIds d, x < t)

/-- The `Date.now()` reads used by the creation operations in the list are
at least `t` and strictly increasing along the list, as successive clock
reads falling in distinct milliseconds are. -/
def freshStamps : Nat → List Op → Prop
  | _, [] => True
  | t, Op.addMember _ ts :: ops => t ≤ ts ∧ freshStamps (ts + 1) ops
  | t, Op.submitIdea _ ts _ :: ops => t ≤ ts ∧ freshStamps (ts + 1) ops
  | t, Op.removeMember _ _ :: ops => freshStamps t ops
  | t, Op.takeAction _ :: ops => freshStamps t ops

/-- A bound on all ids can be raised. -/
lemma idsBelow_mono (d : Doc) (t u : Nat) (h : idsBelow d t) (htu : t ≤ u) :
    idsBelow d u :=
  ⟨fun x hx => lt_of_lt_of_le (h.1 x hx) htu,
   fun x hx => lt_of_lt_of_le (h.2 x hx) htu⟩

/-- `removeMember` only ever drops member ids. -/
lemma removeMember_memberIds_sublist (x : Nat) (c : Bool) (d : Doc) :
    List.Sublist (memberIds (removeMember x c d)) (memberIds d) := by
  cases c
  · exact List.Sublist.refl _
  · simpa [removeMember, memberIds] using ((List.filter_sublist d.members).map Member.id)

/-- `takeActionOnIdea` keeps the list of idea ids unchanged. -/
lemma takeAction_ideaIds (x : Nat) (d : Doc) :
    ideaIds (takeActionOnIdea x d) = ideaIds d := by
  simp only [ideaIds, takeActionOnIdea, List.map_map]
  apply List.map_congr_left
  intro i _
  by_cases h : i.id = x <;> simp [h, Function.comp]

/-- Invariant preservation: starting from a document whose member and idea
ids are distinct and all below `t`, any operation sequence whose creation
stamps are fresh (at least `t`, strictly increasing) keeps both id lists
distinct. -/
lemma nodup_ids_invariant (ops : List Op) :
    ∀ (t : Nat) (d : Doc), (memberIds d).Nodup → (ideaIds d).Nodup →
      idsBelow d t → freshStamps t ops →
      (memberIds (applyOps d ops)).Nodup ∧ (ideaIds (applyOps d ops)).Nodup := by
  induction ops with
  | nil => exact fun t d hm hi _ _ => ⟨hm, hi⟩
  | cons op ops ih =>
      intro t d hm hi hb hf
      show (memberIds (applyOps (applyOp d op) ops)).Nodup ∧
        (ideaIds (applyOps (applyOp d op) ops)).Nodup
      cases op with
      | addMember f ts =>
          obtain ⟨hts, hfr⟩ := hf
          by_cases hname : jsTrim f.name = ""
          · have hid : applyOp d (.addMember f ts) = d := by
              simp [applyOp, addMember, hname]
            rw [hid]
            exact ih (ts + 1) d hm hi
              (idsBelow_mono d t (ts + 1) hb (le_trans hts (Nat.le_succ ts))) hfr
          · have hmem : memberIds (applyOp d (.addMember f ts)) = memberIds d ++ [ts] := by
              simp [applyOp, addMember, hname, memberIds]
            have hide : ideaIds (applyOp d (.addMember f ts)) = ideaIds d := by
              simp [applyOp, addMember, hname, ideaIds]
            refine ih (ts + 1) _ ?_ ?_ ?_ hfr
            · rw [hmem]
              refine List.nodup_append.mpr ⟨hm, List.nodup_singleton ts, ?_⟩
              intro a ha hb2
              rw [List.mem_singleton] at hb2
              subst hb2
              exact absurd (lt_of_lt_of_le (hb.1 a ha) hts) (lt_irrefl a)
            · rw [hide]; exact hi
            · constructor
              · intro x hx
                rw [hmem] at hx
                rcases List.mem_append.mp hx with hx | hx
                · exact lt_of_lt_of_le (hb.1 x hx) (le_trans hts (Nat.le_succ ts))
                · rw [List.mem_singleton] at hx
                  omega
              · intro x hx
                rw [hide] at hx
                exact lt_of_lt_of_le (hb.2 x hx) (le_trans hts (Nat.le_succ ts))
      | submitIdea f ts iso =>
          obtain ⟨hts, hfr⟩ := hf
          by_cases htitle : jsTrim f.title = ""
          · have hid : applyOp d (.submitIdea f ts iso) = d := by
              simp [applyOp, submitIdea, htitle]
            rw [hid]
            exact ih (ts + 1) d hm hi
              (idsBelow_mono d t (ts + 1) hb (le_trans hts (Nat.le_succ ts))) hfr
          · have hmem : memberIds (applyOp d (.submitIdea f ts iso)) = memberIds d := by
              simp [applyOp, submitIdea, htitle, memberIds]
            have hide : ideaIds (applyOp d (.submitIdea f ts iso)) = ts :: ideaIds d := by
              simp [applyOp, submitIdea, htitle, ideaIds]
            refine ih (ts + 1) _ ?_ ?_ ?_ hfr
            · rw [hmem]; exact hm
            · rw [hide]
              refine List.nodup_cons.mpr ⟨?_, hi⟩
              intro ha
              exact absurd (lt_of_lt_of_le (hb.2 ts ha) hts) (lt_irrefl ts)
            · constructor
              · intro x hx
                rw [hmem] at hx
                exact lt_of_lt_of_le (hb.1 x hx) (le_trans hts (Nat.le_succ ts))
              · intro x hx
                rw [hide] at hx
                rcases List.mem_cons.mp hx with hx | hx
                · omega
                · exact lt_of_lt_of_le (hb.2 x hx) (le_trans hts (Nat.le_succ ts))
      | removeMember x c =>
          have hsub := removeMember_memberIds_sublist x c d
          have hide : ideaIds (applyOp d (.removeMember x c)) = ideaIds d := by
            cases c <;> simp [applyOp, removeMember, ideaIds]
          refine ih t _ (hm.sublist hsub) ?_ ?_ hf
          · rw [hide]; exact hi
          · exact ⟨fun y hy => hb.1 y (hsub.subset hy),
              fun y hy => hb.2 y (by rw [hide] at hy; exact hy)⟩
      | takeAction x =>
          have hide : ideaIds (applyOp d (.takeAction x)) = ideaIds d :=
            takeAction_ideaIds x d
          have hmem : memberIds (applyOp d (.takeAction x)) = memberIds d := rfl
          refine ih t _ (by rw [hmem]; exact hm) (by rw [hide]; exact hi) ?_ hf
          exact ⟨fun y hy => hb.1 y (by rw [hmem] at hy; exact hy),
            fun y hy => hb.2 y (by rw [hide] at hy; exact hy)⟩

/-- C2 counterexample: two `addMember` calls whose `Date.now()` reads fall
in the same millisecond (both 5) produce two members with equal ids, so
the member ids of a reachable document are not pairwise distinct. -/
theorem c2_counterexample :
    ¬ (memberIds (applyOps seedDoc
        [Op.addMember ⟨"Asha", "", "", ""⟩ 5,
         Op.addMember ⟨"Ravi", "", "", ""⟩ 5])).Nodup := by
  decide

/-- C2 (amended): in every document reachable from the seed document by
operations whose creation timestamps are strictly increasing (distinct
`Date.now()` milliseconds), all member ids are pairwise distinct and all
idea ids are pairwise distinct. -/
theorem c2_unique_ids (ops : List Op) (h : freshStamps 0 ops) :
    (memberIds (applyOps seedDoc ops)).Nodup ∧
    (ideaIds (applyOps seedDoc ops)).Nodup :=
  nodup_ids_invariant ops 0 seedDoc List.nodup_nil List.nodup_nil
    ⟨fun x hx => absurd hx (List.not_mem_nil x), fun x hx => absurd hx (List.not_mem_nil x)⟩ h

/-- C2 witness: a concrete fresh-stamped run mixing all four operations
keeps both id lists distinct. -/
theorem c2_unique_ids_witness :
    (memberIds (applyOps seedDoc
      [Op.addMember ⟨"Asha", "", "", ""⟩ 1,
       Op.submitIdea ⟨"Fix gate", "", ""⟩ 2 "t2",
       Op.takeAction 2,
       Op.addMember ⟨"Ravi", "", "", ""⟩ 3,
       Op.removeMember 1 true])).Nodup ∧
    (ideaIds (applyOps seedDoc
      [Op.addMember ⟨"Asha", "", "", ""⟩ 1,
       Op.submitIdea ⟨"Fix gate", "", ""⟩ 2 "t2",
       Op.takeAction 2,
       Op.addMember ⟨"Ravi", "", "", ""⟩ 3,
       Op.removeMember 1 true])).Nodup :=
  c2_unique_ids
    [Op.addMember ⟨"Asha", "", "", ""⟩ 1,
     Op.submitIdea ⟨"Fix gate", "", ""⟩ 2 "t2",
     Op.takeAction 2,
     Op.addMember ⟨"Ravi", "", "", ""⟩ 3,
     Op.removeMember 1 true]
    ⟨by decide, by decide, by decide, trivial⟩

end Shangh

namespace Shangh

/-- When member ids are pairwise distinct and some member has the target
id, filtering that id away shortens the list by exactly one. -/
lemma filter_out_id_length (X : Nat) :
    ∀ (l : List Member), (l.map Member.id).Nodup →
      ∀ m ∈ l, m.id = X →
      (l.filter fun m => m.id != X).length + 1 = l.length := by
  intro l
  induction l with
  | nil => intro _ m hm; exact absurd hm (List.not_mem_nil m)
  | cons a l ih =>
      intro hnd m hm hmx
      rw [List.map_cons, List.nodup_cons] at hnd
      by_cases ha : a.id = X
      · have hfl : l.filter (fun m => m.id != X) = l := by
          apply List.filter_eq_self.mpr
          intro b hb
          rw [bne_iff_ne]
          intro hbx
          have : a.id ∈ List.map Member.id l := by
            rw [ha, ← hbx]
            exact List.mem_map_of_mem Member.id hb
          exact hnd.1 this
        simp [List.filter_cons, ha, hfl]
      · have hml : m ∈ l := by
          rcases List.mem_cons.mp hm with h | h
          · exact absurd (h ▸ hmx) ha
          · exact h
        have := ih hnd.2 m hml hmx
        have hpa : (a.id != X) = true := bne_iff_ne.mpr ha
        simp only [List.filter_cons, hpa, if_true, List.length_cons]
        omega

/-- C7 counterexample: on a document with two members that share id 5
(reachable when two adds fall in the same millisecond, and representable
in the persisted slot), confirmed `removeMember 5` removes both, so the
length drops by 2, not by exactly 1 as the claim states for every
document. -/
theorem c7_counterexample :
    (removeMember 5 true
        { sanghName := "s", description := "d",
          members := [⟨5, "A", "", "", none⟩, ⟨5, "B", "", "", none⟩],
          ideas := [] }).members.length = 0 ∧
    ({ sanghName := "s", description := "d",
       members := [⟨5, "A", "", "", none⟩, ⟨5, "B", "", "", none⟩],
       ideas := [] } : Doc).members.length = 2 := by
  decide

/-- C7 (amended): for every document whose member ids are pairwise
distinct, a declined confirmation leaves the document unchanged; a
confirmed `removeMember X` is a no-op when no member has id `X`, removes
exactly one member when one does, keeps every member whose id differs from
`X` (in order, nothing else removed), and leaves ideas, name and
description unchanged. -/
theorem c7_remove_member (d : Doc) (X : Nat) (hnd : (memberIds d).Nodup) :
    removeMember X false d = d ∧
    ((∀ m ∈ d.members, m.id ≠ X) → removeMember X true d = d) ∧
    (∀ m ∈ d.members, m.id = X →
      (removeMember X true d).members.length + 1 = d.members.length) ∧
    List.Sublist (removeMember X true d).members d.members ∧
    (∀ m ∈ d.members, m.id ≠ X → m ∈ (removeMember X true d).members) ∧
    (∀ m ∈ (removeMember X true d).members, m.id ≠ X) ∧
    (removeMember X true d).ideas = d.ideas ∧
    (removeMember X true d).sanghName = d.sanghName ∧
    (removeMember X true d).description = d.description := by
  refine ⟨rfl, ?_, ?_, ?_, ?_, ?_, rfl, rfl, rfl⟩
  · intro h
    have hfl : d.members.filter (fun m => m.id != X) = d.members :=
      List.filter_eq_self.mpr (fun m hm => bne_iff_ne.mpr (h m hm))
    show { d with members := _ } = d
    rw [hfl]
  · intro m hm hmx
    exact filter_out_id_length X d.members hnd m hm hmx
  · exact List.filter_sublist d.members
  · intro m hm hne
    exact List.mem_filter.mpr ⟨hm, bne_iff_ne.mpr hne⟩
  · intro m hm
    exact bne_iff_ne.mp (List.mem_filter.mp hm).2

/-- C7 witness: a concrete two-member document with distinct ids; decline
is a no-op, a missing id is a no-op, and removing an existing id drops the
length from 2 to 1. -/
theorem c7_remove_member_witness :
    removeMember 1 false
      { sanghName := "s", description := "d",
        members := [⟨1, "A", "", "", none⟩, ⟨2, "B", "", "", none⟩], ideas := [] }
      = { sanghName := "s", description := "d",
          members := [⟨1, "A", "", "", none⟩, ⟨2, "B", "", "", none⟩], ideas := [] } ∧
    removeMember 9 true
      { sanghName := "s", description := "d",
        members := [⟨1, "A", "", "", none⟩, ⟨2, "B", "", "", none⟩], ideas := [] }
      = { sanghName := "s", description := "d",
          members := [⟨1, "A", "", "", none⟩, ⟨2, "B", "", "", none⟩], ideas := [] } ∧
    (removeMember 1 true
      { sanghName := "s", description := "d",
        members := [⟨1, "A", "", "", none⟩, ⟨2, "B", "", "", none⟩], ideas := [] }).members.length + 1
      = 2 := by
  have h := c7_remove_member
    { sanghName := "s", description := "d",
      members := [⟨1, "A", "", "", none⟩, ⟨2, "B", "", "", none⟩], ideas := [] }
    1 (by decide)
  have h9 := c7_remove_member
    { sanghName := "s", description := "d",
      members := [⟨1, "A", "", "", none⟩, ⟨2, "B", "", "", none⟩], ideas := [] }
    9 (by decide)
  exact ⟨h.1, h9.2.1 (by decide), h.2.2.1 ⟨1, "A", "", "", none⟩ (by decide) rfl⟩

end Shangh

namespace Shangh

/-- JSON values, as produced by `JSON.parse` and consumed by
`JSON.stringify` in `useLocalStorageState` (lines 31-46).  The text layer
(`JSON.stringify` to the slot string and `JSON.parse` back) is the
identity on these values per the JSON standard, so the persisted slot is
modelled as holding a `Json` value directly. -/
inductive Json where
  | null : Json
  | str : String → Json
  | num : Nat → Json
  | arr : List Json → Json
  | obj : List (String × Json) → Json

/-- First-match field lookup in a JSON object (the encoder below never
emits duplicate keys, so first match equals JS property access). -/
def lookupField : List (String × Json) → String → Option Json
  | [], _ => none
  | (k, v) :: rest, key => if k = key then some v else lookupField rest key

/-- Read a field of a JSON object. -/
def getField (j : Json) (key : String) : Option Json :=
  match j with
  | .obj fields => lookupField fields key
  | _ => none

/-- An optional string field (`photo` / `image`), encoded as JS stores it:
`null` or the data-URL string. -/
def encodeOptStr : Option String → Json
  | none => Json.null
  | some s => Json.str s

/-- Serialization of a member, with the field layout of lines 78-84. -/
def encodeMember (m : Member) : Json :=
  .obj [("id", .num m.id), ("name", .str m.name), ("position", .str m.position),
        ("work", .str m.work), ("photo", encodeOptStr m.photo)]

/-- Serialization of an idea, with the field layout of lines 92-99. -/
def encodeIdea (i : Idea) : Json :=
  .obj [("id", .num i.id), ("title", .str i.title),
        ("description", .str i.description), ("image", encodeOptStr i.image),
        ("status", .str i.status), ("submittedAt", .str i.submittedAt)]

/-- Serialization of the whole document, with the field layout of
lines 49-54: this is what `JSON.stringify(state)` writes to the slot. -/
def encodeDoc (d : Doc) : Json :=
  .obj [("sanghName", .str d.sanghName), ("description", .str d.description),
        ("members", .arr (d.members.map encodeMember)),
        ("ideas", .arr (d.ideas.map encodeIdea))]

/-- Typed view of a JSON value expected to be a string. -/
def asStr : Json → Option String
  | .str s => some s
  | _ => none

/-- Typed view of a JSON value expected to be a number. -/
def asNat : Json → Option Nat
  | .num n => some n
  | _ => none

/-- Typed view of a JSON value expected to be an array. -/
def asArr : Json → Option (List Json)
  | .arr xs => some xs
  | _ => none

/-- Typed view of a nullable string field. -/
def asOptStr : Json → Option (Option String)
  | .null => some none
  | .str s => some (some s)
  | _ => none

/-- Decode every element of a JSON array, failing if any element fails. -/
def decodeAll (f : Json → Option α) : List Json → Option (List α)
  | [] => some []
  | j :: js =>
    match f j, decodeAll f js with
    | some a, some rest => some (a :: rest)
    | _, _ => none

/-- Typed reading of a parsed member object, via the fields the component
renders and mutates (`m.id`, `m.name`, `m.position`, `m.work`, `m.photo`). -/
def decodeMember (j : Json) : Option Member :=
  match getField j "id", getField j "name", getField j "position",
      getField j "work", getField j "photo" with
  | some ja, some jb, some jc, some jd, some je =>
    match asNat ja, asStr jb, asStr jc, asStr jd, asOptStr je with
    | some a, some b, some c, some dd, some e => some ⟨a, b, c, dd, e⟩
    | _, _, _, _, _ => none
  | _, _, _, _, _ => none

/-- Typed reading of a parsed idea object, via the fields the component
renders and mutates. -/
def decodeIdea (j : Json) : Option Idea :=
  match getField j "id", getField j "title", getField j "description",
      getField j "image", getField j "status", getField j "submittedAt" with
  | some ja, some jb, some jc, some jd, some je, some jf =>
    match asNat ja, asStr jb, asStr jc, asOptStr jd, asStr je, asStr jf with
    | some a, some b, some c, some dd, some e, some f => some ⟨a, b, c, dd, e, f⟩
    | _, _, _, _, _, _ => none
  | _, _, _, _, _, _ => none

/-- Typed reading of a parsed document, via the fields the component uses
(`data.sanghName`, `data.description`, `data.members`, `data.ideas`). -/
def decodeDoc (j : Json) : Option Doc :=
  match getField j "sanghName", getField j "description",
      getField j "members", getField j "ideas" with
  | some ja, some jb, some jc, some jd =>
    match asStr ja, asStr jb, asArr jc, asArr jd with
    | some n, some de, some jms, some jis =>
      match decodeAll decodeMember jms, decodeAll decodeIdea jis with
      | some ms, some ideas0 => some ⟨n, de, ms, ideas0⟩
      | _, _ => none
    | _, _, _, _ => none
  | _, _, _, _ => none

/-- The initializer of `useLocalStorageState` (lines 32-39): the slot is
either absent (or empty, both falsy: `none`), present but failing to parse
(`some none`, the caught exception), or present with a parsed value
(`some (some j)`).  Absent or unparsable content falls back to `initial`. -/
def load (slot : Option (Option Json)) (initial : Json) : Json :=
  match slot with
  | none => initial
  | some none => initial
  | some (some j) => j

/-- The persistence effect of lines 40-44: `localStorage.setItem(key,
JSON.stringify(state))` inside `try { } catch (e) {}`.  `ok` tells whether
the write succeeds; on failure the slot keeps its old content and the
in-memory state is untouched either way. -/
def persist (ok : Bool) (slot : Option (Option Json)) (state : Json) :
    Option (Option Json) × Json :=
  if ok then (some (some state), state) else (slot, state)

end Shangh

namespace Shangh

/-- Decoding an encoded member recovers it exactly. -/
lemma decodeMember_encodeMember (m : Member) :
    decodeMember (encodeMember m) = some m := by
  cases m with
  | mk a b c dd e => cases e <;> rfl

/-- Decoding an encoded idea recovers it exactly. -/
lemma decodeIdea_encodeIdea (i : Idea) : decodeIdea (encodeIdea i) = some i := by
  cases i with
  | mk a b c dd e f => cases dd <;> rfl

/-- Decoding an encoded member array recovers the member list. -/
lemma decodeAll_members (ms : List Member) :
    decodeAll decodeMember (ms.map encodeMember) = some ms := by
  induction ms with
  | nil => rfl
  | cons m ms ih => simp [decodeAll, decodeMember_encodeMember m, ih]

/-- Decoding an encoded idea array recovers the idea list. -/
lemma decodeAll_ideas (l : List Idea) :
    decodeAll decodeIdea (l.map encodeIdea) = some l := by
  induction l with
  | nil => rfl
  | cons i l ih => simp [decodeAll, decodeIdea_encodeIdea i, ih]

/-- Decoding an encoded document recovers it exactly. -/
lemma decodeDoc_encodeDoc (d : Doc) : decodeDoc (encodeDoc d) = some d := by
  cases d with
  | mk n de ms ideas0 =>
      show (match decodeAll decodeMember (ms.map encodeMember),
          decodeAll decodeIdea (ideas0.map encodeIdea) with
        | some ms', some is' => some (⟨n, de, ms', is'⟩ : Doc)
        | _, _ => none) = some ⟨n, de, ms, ideas0⟩
      rw [decodeAll_members, decodeAll_ideas]

/-- C8: saving any document to the persisted slot (serializing it with the
layout of `JSON.stringify(state)`) and loading from that slot yields back a
parsed document whose members, ideas, organization name and description all
equal those of the original document. -/
theorem c8_save_load_roundtrip (d : Doc) (initial : Json) :
    decodeDoc (load (some (some (encodeDoc d))) initial) = some d ∧
    (decodeDoc (load (some (some (encodeDoc d))) initial)).map Doc.members
      = some d.members ∧
    (decodeDoc (load (some (some (encodeDoc d))) initial)).map Doc.ideas
      = some d.ideas ∧
    (decodeDoc (load (some (some (encodeDoc d))) initial)).map Doc.sanghName
      = some d.sanghName ∧
    (decodeDoc (load (some (some (encodeDoc d))) initial)).map Doc.description
      = some d.description := by
  have h : decodeDoc (load (some (some (encodeDoc d))) initial) = some d :=
    decodeDoc_encodeDoc d
  exact ⟨h, by rw [h]; rfl, by rw [h]; rfl, by rw [h]; rfl, by rw [h]; rfl⟩

/-- C9: when the persisted slot is absent or its content fails to parse,
`load` returns the seed document (whose members and ideas are empty) rather
than failing; a failed write (`persist` with `ok = false`) leaves both the
slot and the in-memory state exactly as they were. -/
theorem c9_load_fallback_and_silent_save (slot : Option (Option Json)) (s : Json) :
    load none (encodeDoc seedDoc) = encodeDoc seedDoc ∧
    load (some none) (encodeDoc seedDoc) = encodeDoc seedDoc ∧
    decodeDoc (encodeDoc seedDoc) = some seedDoc ∧
    seedDoc.members = [] ∧
    seedDoc.ideas = [] ∧
    persist false slot s = (slot, s) :=
  ⟨rfl, rfl, decodeDoc_encodeDoc seedDoc, rfl, rfl, rfl⟩

end Shangh
